import Mathlib

/-!
Formal model of the sliding-window rate limiter middleware
(`rateLimiter.ts`): the Lua-scripted `checkRateLimit` admission check and
the read-only `getRateLimitStatus` projection, over a shallow embedding of
the per-principal Redis sorted set.

Times and scores are integers (milliseconds since epoch, exact in the
JavaScript safe-integer range).  A Redis sorted-set member is modelled as a
natural-number token (the source draws a fresh `crypto.randomUUID()` per
call; the model draws from a per-state counter, and freshness is carried as
an explicit invariant where a proof needs it).  The list holds insertion
order; every observation the code makes of the set (cardinality, minimum
score, score-range membership) is order independent.
-/

namespace RateLimiter

/-- Integer form of `Math.ceil(a / 1000)` (JavaScript) and
`math.ceil(a / 1000)` (Lua): for any integer `a`,
`⌈a / 1000⌉ = (a + 999) / 1000` with Euclidean (floor, for a positive
divisor) integer division. -/
def ceilDiv1000 (a : Int) : Int := (a + 999) / 1000

/-- One member of the per-principal Redis sorted set: `score` is the
admission timestamp in ms, `member` the unique request token. -/
structure Entry where
  score : Int
  member : Nat
deriving Repr, DecidableEq

/-- The state held at one Redis key `ratelimit:{apiKeyId}`: the sorted-set
entries, the supply of fresh request tokens, and the key TTL set by
`EXPIRE` (seconds). -/
structure RLState where
  entries : List Entry
  nextToken : Nat
  ttl : Option Int
deriving Repr, DecidableEq

/-- The `RateLimitInfo` record returned on an admitted request:
`{ limit, remaining, reset }`. -/
structure RateLimitInfo where
  limit : Int
  remaining : Int
  reset : Int
deriving Repr, DecidableEq

/-- The `RateLimitError` thrown on rejection (`utils/errors.ts`): its
constructor stores `{ limit, remaining: 0, reset, retryAfter }`. -/
structure RateLimitError where
  limit : Int
  remaining : Int
  reset : Int
  retryAfter : Int
deriving Repr, DecidableEq

/-- `new RateLimitError(limit, reset, retryAfter)` — the constructor pins
`remaining := 0`. -/
def RateLimitError.make (limit reset retryAfter : Int) : RateLimitError :=
  ⟨limit, 0, reset, retryAfter⟩

/-- Outcome of `checkRateLimit`: the returned info, or the thrown
`RateLimitError`. -/
inductive RLResult where
  | ok (info : RateLimitInfo)
  | err (e : RateLimitError)
deriving Repr, DecidableEq

/-- `ZREMRANGEBYSCORE key -inf windowStart`: removes every member whose
score lies in `[-inf, windowStart]` (both ends inclusive, as in Redis), so
the survivors are exactly the entries with `windowStart < score`. -/
def zRemRangeByScore (windowStart : Int) (entries : List Entry) : List Entry :=
  entries.filter (fun e => decide (windowStart < e.score))

/-- `ZADD key score member`: updates the score when the member is already
present, otherwise appends a new entry. -/
def zAdd (score : Int) (member : Nat) (entries : List Entry) : List Entry :=
  if entries.any (fun e => e.member == member) then
    entries.map (fun e => if e.member == member then ⟨score, e.member⟩ else e)
  else entries ++ [⟨score, member⟩]

/-- Score of the oldest member, as read by the Lua
`ZRANGE key 0 0 WITHSCORES` (rank 0 = minimum score). -/
def minScore (entries : List Entry) : Option Int :=
  (entries.map Entry.score).min?

/-- Reset time computed by the Lua script's rejected branch: the oldest
surviving score plus `windowMs` when an entry survives, and the defensive
initial value `0` when none does. -/
def luaResetTime (windowMs : Int) (entries1 : List Entry) : Int :=
  match minScore entries1 with
  | some s => s + windowMs
  | none => 0

/-- The atomic Lua script of `checkRateLimit`: purge, count, then either
report rejection data or insert the request and refresh the TTL.  Returns
the script's `{allowed, count, resetTime}` triple together with the updated
key state. -/
def luaScript (now windowStart limit : Int) (requestId : Nat) (windowMs : Int)
    (entries : List Entry) (ttl : Option Int) :
    (Int × Int × Int) × List Entry × Option Int :=
  let entries1 := zRemRangeByScore windowStart entries
  if limit ≤ (entries1.length : Int) then
    ((0, (entries1.length : Int), luaResetTime windowMs entries1), entries1, ttl)
  else
    ((1, (entries1.length : Int) + 1, now + windowMs),
      zAdd now requestId entries1, some (ceilDiv1000 windowMs))

/-- `checkRateLimit(apiKeyId, limit, windowMs)` with the clock injected:
runs the atomic script at time `now` on the key state (the fresh request
token being drawn from the state's counter), then either returns
`RateLimitInfo` (allowed) or throws `RateLimitError` (rejected). -/
def checkRateLimit (limit windowMs now : Int) (st : RLState) :
    RLResult × RLState :=
  let r := luaScript now (now - windowMs) limit st.nextToken windowMs
    st.entries st.ttl
  (if r.1.1 = 0 then
    RLResult.err
      (RateLimitError.make limit (ceilDiv1000 r.1.2.2)
        (ceilDiv1000 (r.1.2.2 - now)))
  else
    RLResult.ok ⟨limit, limit - r.1.2.1, ceilDiv1000 r.1.2.2⟩,
  ⟨r.2.1, st.nextToken + 1, r.2.2⟩)

/-- `checkRateLimit` including its catch block: when the store operation
errors (`storeOk = false`), the engine fails open and returns a permissive
`RateLimitInfo` without touching the store. -/
def checkRateLimitFull (storeOk : Bool) (limit windowMs now : Int)
    (st : RLState) : RLResult × RLState :=
  if storeOk then checkRateLimit limit windowMs now st
  else (RLResult.ok ⟨limit, limit, ceilDiv1000 (now + windowMs)⟩, st)

/-- `zRange(key, 0, 0, { REV: false, BY: 'SCORE' })` as issued by
`getRateLimitStatus`: with `BY: 'SCORE'` the two `0`s are score bounds, so
this returns the members whose score lies in `[0, 0]` — not the rank-0
(oldest) member. -/
def zRangeByScore00 (entries : List Entry) : List Nat :=
  (entries.filter (fun e => decide (0 ≤ e.score) && decide (e.score ≤ 0))).map
    Entry.member

/-- `getRateLimitStatus(apiKeyId, limit, windowMs)` with the clock
injected: non-atomic purge, count, oldest-member query.  The source applies
`parseInt` to the returned member string (not to a score); in the model the
member token is recovered verbatim. -/
def getRateLimitStatus (limit windowMs now : Int) (st : RLState) :
    RateLimitInfo × RLState :=
  let windowStart := now - windowMs
  let entries1 := zRemRangeByScore windowStart st.entries
  let count : Int := entries1.length
  let oldest := zRangeByScore00 entries1
  let resetTime : Int :=
    match oldest.head? with
    | some m => (m : Int) + windowMs
    | none => now + windowMs
  (⟨limit, max 0 (limit - count), ceilDiv1000 resetTime⟩,
    ⟨entries1, st.nextToken, st.ttl⟩)

/-- Result of the `N+1`-st of a run of successive `getRateLimitStatus`
calls sharing one `now`. -/
def peekN (limit windowMs now : Int) : Nat → RLState → RateLimitInfo × RLState
  | 0, st => getRateLimitStatus limit windowMs now st
  | k + 1, st =>
    peekN limit windowMs now k (getRateLimitStatus limit windowMs now st).2

/-- `REDIS_KEYS.RATE_LIMIT` from `utils/constants.ts`:
`(apiKeyId) => ratelimit:{apiKeyId}`. -/
def REDIS_KEYS.RATE_LIMIT (apiKeyId : String) : String :=
  "ratelimit:" ++ apiKeyId

/-- The whole Redis keyspace: one `RLState` per key. -/
def Store : Type := String → RLState

/-- `checkRateLimit` as it acts on the keyspace: it reads and writes only
the key `REDIS_KEYS.RATE_LIMIT apiKeyId`. -/
def checkRateLimitKeyed (apiKeyId : String) (limit windowMs now : Int)
    (store : Store) : RLResult × Store :=
  let key := REDIS_KEYS.RATE_LIMIT apiKeyId
  let r := checkRateLimit limit windowMs now (store key)
  (r.1, fun k => if k = key then r.2 else store k)

/-- A sequence of admission checks for one principal on the keyspace; each
element carries that call's `(limit, windowMs, now)`. -/
def runKeyedTrace (apiKeyId : String) :
    List (Int × Int × Int) → Store → Store
  | [], store => store
  | (l, w, n) :: rest, store =>
    runKeyedTrace apiKeyId rest (checkRateLimitKeyed apiKeyId l w n store).2

/-- A sequence of `checkRateLimit` calls for one principal at the given
times, collecting the timestamps of the admitted requests. -/
def runTrace (limit windowMs : Int) : List Int → RLState → List Int × RLState
  | [], st => ([], st)
  | n :: ns, st =>
    let r := checkRateLimit limit windowMs n st
    let rest := runTrace limit windowMs ns r.2
    ((match r.1 with
      | RLResult.ok _ => [n]
      | RLResult.err _ => []) ++ rest.1, rest.2)

/-- The empty key state of a fresh principal. -/
def emptyState : RLState := ⟨[], 0, none⟩

/-- Membership of a timestamp in the sliding window of length `windowMs`
anchored at `t`: the half-open interval `(t - windowMs, t]`, matching the
purge semantics (a surviving entry satisfies `now - windowMs < score`). -/
def inWindow (t windowMs s : Int) : Bool :=
  decide (t - windowMs < s) && decide (s ≤ t)

/-! Basic lemmas about the purge, the insertion and the oldest-score read. -/

lemma mem_zRemRangeByScore {ws : Int} {l : List Entry} {e : Entry} :
    e ∈ zRemRangeByScore ws l ↔ e ∈ l ∧ ws < e.score := by
  simp [zRemRangeByScore]

lemma zRemRangeByScore_sublist (ws : Int) (l : List Entry) :
    List.Sublist (zRemRangeByScore ws l) l :=
  List.filter_sublist l

lemma zRemRangeByScore_idem (ws : Int) (l : List Entry) :
    zRemRangeByScore ws (zRemRangeByScore ws l) = zRemRangeByScore ws l := by
  apply List.filter_eq_self.mpr
  intro e he
  simpa using (mem_zRemRangeByScore.mp he).2

lemma zRemRangeByScore_append (ws : Int) (l₁ l₂ : List Entry) :
    zRemRangeByScore ws (l₁ ++ l₂) =
      zRemRangeByScore ws l₁ ++ zRemRangeByScore ws l₂ := by
  simp [zRemRangeByScore]

lemma zAdd_of_fresh {m : Nat} {l : List Entry} (h : ∀ e ∈ l, e.member ≠ m)
    (s : Int) : zAdd s m l = l ++ [⟨s, m⟩] := by
  have hany : l.any (fun e => e.member == m) = false := by
    simp only [List.any_eq_false, beq_iff_eq]
    exact h
  simp [zAdd, hany]

lemma zAdd_length (s : Int) (m : Nat) (l : List Entry) :
    (zAdd s m l).length = l.length ∨ (zAdd s m l).length = l.length + 1 := by
  unfold zAdd
  by_cases h : l.any (fun e => e.member == m) = true
  · rw [if_pos h]; left; exact List.length_map _ _
  · rw [if_neg h]; right; simp

lemma minScore_eq_none {l : List Entry} : minScore l = none ↔ l = [] := by
  cases l <;> simp [minScore, List.min?]

lemma minScore_mem {l : List Entry} {s : Int} (h : minScore l = some s) :
    ∃ e ∈ l, e.score = s := by
  have hs : s ∈ l.map Entry.score :=
    List.min?_mem (fun a b => min_choice a b) h
  simpa using hs

lemma ceilDiv1000_pos {a : Int} (h : 0 < a) : 0 < ceilDiv1000 a := by
  unfold ceilDiv1000
  omega

/-! Evaluation lemmas for the two branches of the atomic script. -/

lemma checkRateLimit_eq_reject (limit windowMs now : Int) (st : RLState)
    (h : limit ≤ ((zRemRangeByScore (now - windowMs) st.entries).length : Int)) :
    checkRateLimit limit windowMs now st =
      (RLResult.err
        (RateLimitError.make limit
          (ceilDiv1000
            (luaResetTime windowMs (zRemRangeByScore (now - windowMs) st.entries)))
          (ceilDiv1000
            (luaResetTime windowMs (zRemRangeByScore (now - windowMs) st.entries)
              - now))),
       ⟨zRemRangeByScore (now - windowMs) st.entries, st.nextToken + 1, st.ttl⟩) := by
  have h' :
      luaScript now (now - windowMs) limit st.nextToken windowMs st.entries st.ttl =
        ((0, ((zRemRangeByScore (now - windowMs) st.entries).length : Int),
          luaResetTime windowMs (zRemRangeByScore (now - windowMs) st.entries)),
         zRemRangeByScore (now - windowMs) st.entries, st.ttl) := by
    simp only [luaScript]
    rw [if_pos h]
  simp only [checkRateLimit, h']
  norm_num

lemma checkRateLimit_eq_allowed (limit windowMs now : Int) (st : RLState)
    (h : ((zRemRangeByScore (now - windowMs) st.entries).length : Int) < limit) :
    checkRateLimit limit windowMs now st =
      (RLResult.ok
        ⟨limit,
          limit - (((zRemRangeByScore (now - windowMs) st.entries).length : Int) + 1),
          ceilDiv1000 (now + windowMs)⟩,
       ⟨zAdd now st.nextToken (zRemRangeByScore (now - windowMs) st.entries),
        st.nextToken + 1, some (ceilDiv1000 windowMs)⟩) := by
  have h' :
      luaScript now (now - windowMs) limit st.nextToken windowMs st.entries st.ttl =
        ((1, ((zRemRangeByScore (now - windowMs) st.entries).length : Int) + 1,
          now + windowMs),
         zAdd now st.nextToken (zRemRangeByScore (now - windowMs) st.entries),
         some (ceilDiv1000 windowMs)) := by
    simp only [luaScript]
    rw [if_neg (not_le.mpr h)]
  simp only [checkRateLimit, h']
  norm_num

/-! The claim theorems. -/

/-- C5: when the store operation errors, the engine fails open: it returns
an Admitted decision with `remaining = limit` and
`reset = ceil((now + windowMs) / 1000)`, regardless of the principal's
prior usage recorded in `st`, leaving the store untouched and surfacing no
failure to the caller. -/
theorem checkRateLimit_fail_open (limit windowMs now : Int) (st : RLState) :
    checkRateLimitFull false limit windowMs now st =
      (RLResult.ok ⟨limit, limit, ceilDiv1000 (now + windowMs)⟩, st) := rfl

/-- C2: when the post-purge count is strictly below `limit`, the call
inserts exactly one new entry with score `now` and a fresh token, sets the
key TTL to `ceil(windowMs / 1000)` seconds, and returns an Admitted
decision with `remaining = limit - (count + 1)` and
`reset = ceil((now + windowMs) / 1000)`. -/
theorem checkRateLimit_admit_spec (limit windowMs now : Int) (st : RLState)
    (hcount :
      ((zRemRangeByScore (now - windowMs) st.entries).length : Int) < limit)
    (hfresh : ∀ e ∈ st.entries, e.member < st.nextToken) :
    (checkRateLimit limit windowMs now st).1 =
      RLResult.ok
        ⟨limit,
          limit - (((zRemRangeByScore (now - windowMs) st.entries).length : Int) + 1),
          ceilDiv1000 (now + windowMs)⟩ ∧
    (checkRateLimit limit windowMs now st).2.entries =
      zRemRangeByScore (now - windowMs) st.entries ++ [⟨now, st.nextToken⟩] ∧
    (∀ e ∈ zRemRangeByScore (now - windowMs) st.entries,
      e.member ≠ st.nextToken) ∧
    (checkRateLimit limit windowMs now st).2.ttl =
      some (ceilDiv1000 windowMs) := by
  have hsub : ∀ e ∈ zRemRangeByScore (now - windowMs) st.entries,
      e ∈ st.entries :=
    fun e he => (zRemRangeByScore_sublist _ _).subset he
  have hfresh' : ∀ e ∈ zRemRangeByScore (now - windowMs) st.entries,
      e.member ≠ st.nextToken :=
    fun e he => Nat.ne_of_lt (hfresh e (hsub e he))
  rw [checkRateLimit_eq_allowed limit windowMs now st hcount]
  refine ⟨rfl, ?_, hfresh', rfl⟩
  exact zAdd_of_fresh hfresh' now

/-- C2 witness: a fresh principal at time 5000 with limit 1 and a 1000 ms
window is admitted with remaining 0, one entry inserted, TTL 1 s. -/
theorem checkRateLimit_admit_spec_witness :
    ((zRemRangeByScore (5000 - 1000) (emptyState).entries).length : Int) < 1 ∧
    ((checkRateLimit 1 1000 5000 emptyState).1 =
      RLResult.ok
        ⟨1, 1 - (((zRemRangeByScore (5000 - 1000) (emptyState).entries).length : Int) + 1),
          ceilDiv1000 (5000 + 1000)⟩ ∧
    (checkRateLimit 1 1000 5000 emptyState).2.entries =
      zRemRangeByScore (5000 - 1000) (emptyState).entries ++
        [⟨5000, (emptyState).nextToken⟩] ∧
    (∀ e ∈ zRemRangeByScore (5000 - 1000) (emptyState).entries,
      e.member ≠ (emptyState).nextToken) ∧
    (checkRateLimit 1 1000 5000 emptyState).2.ttl = some (ceilDiv1000 1000)) :=
  ⟨by decide,
    checkRateLimit_admit_spec 1 1000 5000 emptyState (by decide) (by decide)⟩

/-- C3 counterexample: at `limit = 0` (post-purge count `0 ≥ limit`) with
no surviving entries, the code's defensive fallback leaves
`resetTime = 0`, so the rejection reports `reset = 0` — not
`ceil((now + windowMs) / 1000) = 6` as the claim's fallback states — and
`retryAfter = -5`, which is negative, so no floor at 0 is applied. -/
theorem checkRateLimit_reject_fallback_cex :
    (checkRateLimit 0 1000 5000 emptyState).1 =
      RLResult.err ⟨0, 0, 0, -5⟩ ∧
    ceilDiv1000 (5000 + 1000) = 6 ∧ ((0 : Int) ≠ 6) ∧ ((-5 : Int) < 0) := by
  decide

/-- C3 amended: when the post-purge count is at least `limit`, the decision
is Rejected with `remaining = 0`; `resetTime` is the oldest surviving
entry's score plus `windowMs` when an entry survives and `0` (not
`now + windowMs`) when none does; the rejection carries
`reset = ceil(resetTime / 1000)` and
`retryAfter = ceil((resetTime - now) / 1000)` with no flooring at 0; and no
entry is inserted. -/
theorem checkRateLimit_reject_spec (limit windowMs now : Int) (st : RLState)
    (hcount :
      limit ≤ ((zRemRangeByScore (now - windowMs) st.entries).length : Int)) :
    (checkRateLimit limit windowMs now st).1 =
      RLResult.err
        (RateLimitError.make limit
          (ceilDiv1000
            (luaResetTime windowMs (zRemRangeByScore (now - windowMs) st.entries)))
          (ceilDiv1000
            (luaResetTime windowMs (zRemRangeByScore (now - windowMs) st.entries)
              - now))) ∧
    (∀ l r ra, (RateLimitError.make l r ra).remaining = 0) ∧
    (checkRateLimit limit windowMs now st).2.entries =
      zRemRangeByScore (now - windowMs) st.entries := by
  rw [checkRateLimit_eq_reject limit windowMs now st hcount]
  exact ⟨rfl, fun _ _ _ => rfl, rfl⟩

/-- C3 amended witness: one surviving entry at score 4500, `limit = 1`,
window 1000 ms, `now = 5000`: rejected with reset 6 and retryAfter 1. -/
theorem checkRateLimit_reject_spec_witness :
    (1 : Int) ≤
      ((zRemRangeByScore (5000 - 1000)
        (⟨[⟨4500, 0⟩], 1, none⟩ : RLState).entries).length : Int) ∧
    ((checkRateLimit 1 1000 5000 (⟨[⟨4500, 0⟩], 1, none⟩ : RLState)).1 =
      RLResult.err
        (RateLimitError.make 1
          (ceilDiv1000
            (luaResetTime 1000 (zRemRangeByScore (5000 - 1000)
              (⟨[⟨4500, 0⟩], 1, none⟩ : RLState).entries)))
          (ceilDiv1000
            (luaResetTime 1000 (zRemRangeByScore (5000 - 1000)
              (⟨[⟨4500, 0⟩], 1, none⟩ : RLState).entries) - 5000))) ∧
    (∀ l r ra, (RateLimitError.make l r ra).remaining = 0) ∧
    (checkRateLimit 1 1000 5000 (⟨[⟨4500, 0⟩], 1, none⟩ : RLState)).2.entries =
      zRemRangeByScore (5000 - 1000)
        (⟨[⟨4500, 0⟩], 1, none⟩ : RLState).entries) :=
  ⟨by decide,
    checkRateLimit_reject_spec 1 1000 5000 ⟨[⟨4500, 0⟩], 1, none⟩ (by decide)⟩

/-- C4 counterexample: an entry whose score equals exactly
`now - windowMs` (here 1000 = 2000 - 1000) does not survive the purge: the
purge removes it, the count drops to 0, and with `limit = 1` the request is
Admitted — whereas the claim's strict-inequality purge would have kept the
entry, counted 1 ≥ limit, and Rejected. -/
theorem purge_boundary_cex :
    zRemRangeByScore (2000 - 1000) [⟨1000, 0⟩] = [] ∧
    (checkRateLimit 1 1000 2000 (⟨[⟨1000, 0⟩], 1, none⟩ : RLState)).1 =
      RLResult.ok ⟨1, 0, 3⟩ := by
  decide

/-- C4 amended: in both `checkRateLimit` and `getRateLimitStatus` the purge
removes exactly the members with score less than or equal to
`now - windowMs` — an entry whose score equals `now - windowMs` is removed
— and no entry is ever double-counted: the survivors form a sublist of the
original entries, each counted once. -/
theorem purge_semantics (limit windowMs now : Int) (st : RLState) (e : Entry) :
    (e ∈ zRemRangeByScore (now - windowMs) st.entries ↔
      e ∈ st.entries ∧ now - windowMs < e.score) ∧
    (e.score ≤ now - windowMs →
      e ∉ zRemRangeByScore (now - windowMs) st.entries) ∧
    List.Sublist (zRemRangeByScore (now - windowMs) st.entries) st.entries ∧
    (zRemRangeByScore (now - windowMs) st.entries).length =
      st.entries.countP (fun e2 => decide (now - windowMs < e2.score)) ∧
    (getRateLimitStatus limit windowMs now st).2.entries =
      zRemRangeByScore (now - windowMs) st.entries := by
  refine ⟨mem_zRemRangeByScore, ?_, zRemRangeByScore_sublist _ _, ?_, rfl⟩
  · intro hle hmem
    exact absurd (mem_zRemRangeByScore.mp hmem).2 (not_lt.mpr hle)
  · rw [zRemRangeByScore]
    exact (List.countP_eq_length_filter _ _).symm

lemma getRateLimitStatus_fix (limit windowMs now : Int) (st : RLState) :
    getRateLimitStatus limit windowMs now
        (getRateLimitStatus limit windowMs now st).2 =
      getRateLimitStatus limit windowMs now st := by
  simp only [getRateLimitStatus, zRemRangeByScore_idem]

lemma peekN_eq (limit windowMs now : Int) :
    ∀ (N : Nat) (st : RLState),
      peekN limit windowMs now N st = getRateLimitStatus limit windowMs now st := by
  intro N
  induction N with
  | zero => intro st; rfl
  | succ k ih =>
    intro st
    simp only [peekN]
    rw [ih, getRateLimitStatus_fix]

/-- C7: `getRateLimitStatus` is purely observational: the `N+1`-st of any
run of successive calls with one `now` returns the very same result as the
first, so no quota is ever consumed by peeking; its only state effect is
the idempotent purge — the surviving entries are a sublist of the original
ones (nothing is inserted) and the token counter and TTL are untouched. -/
theorem getRateLimitStatus_idempotent (limit windowMs now : Int) (st : RLState) :
    (∀ N : Nat, peekN limit windowMs now N st =
      getRateLimitStatus limit windowMs now st) ∧
    List.Sublist ((getRateLimitStatus limit windowMs now st).2.entries)
      st.entries ∧
    (getRateLimitStatus limit windowMs now st).2.nextToken = st.nextToken ∧
    (getRateLimitStatus limit windowMs now st).2.ttl = st.ttl :=
  ⟨fun N => peekN_eq limit windowMs now N st,
    zRemRangeByScore_sublist _ _, rfl, rfl⟩

/-- C8: with one surviving entry of score 6000, `windowMs = 5000` and
`now = 10000`, `getRateLimitStatus` reports `reset = 15` —
`ceil((now + windowMs) / 1000)`, because its oldest-entry query
`zRange(key, 0, 0, BY SCORE)` asks for members with score in `[0, 0]` and
finds none (and would `parseInt` the member token, not the score, if it
found one) — while the §4.1 derivation used by the admission path yields
`reset = ceil((6000 + 5000) / 1000) = 11` from the same state.  The code
contradicts its own comment (`Get oldest entry for reset time`). -/
theorem getRateLimitStatus_reset_divergence :
    (getRateLimitStatus 1 5000 10000 (⟨[⟨6000, 0⟩], 1, none⟩ : RLState)).1 =
      ⟨1, 0, 15⟩ ∧
    (checkRateLimit 1 5000 10000 (⟨[⟨6000, 0⟩], 1, none⟩ : RLState)).1 =
      RLResult.err ⟨1, 0, 11, 1⟩ ∧
    minScore (zRemRangeByScore (10000 - 5000) [⟨6000, 0⟩]) = some 6000 ∧
    ceilDiv1000 (6000 + 5000) = 11 ∧ ((15 : Int) ≠ 11) := by
  decide

/-- C10: under `limit ≥ 1`, in the rejected branch the defensive
no-survivor fallback is unreachable: the oldest-entry read returns a score
`s` with `now - windowMs < s`, the rejection carries
`reset = ceil((s + windowMs) / 1000)` and
`retryAfter = ceil((s + windowMs - now) / 1000)`, and that retryAfter is
strictly positive even though the code applies no explicit floor at 0. -/
theorem checkRateLimit_reject_retry_positive (limit windowMs now : Int)
    (st : RLState) (hl : 1 ≤ limit)
    (hcount :
      limit ≤ ((zRemRangeByScore (now - windowMs) st.entries).length : Int)) :
    ∃ s, minScore (zRemRangeByScore (now - windowMs) st.entries) = some s ∧
      now - windowMs < s ∧
      (checkRateLimit limit windowMs now st).1 =
        RLResult.err
          (RateLimitError.make limit (ceilDiv1000 (s + windowMs))
            (ceilDiv1000 (s + windowMs - now))) ∧
      0 < ceilDiv1000 (s + windowMs - now) := by
  have hne : zRemRangeByScore (now - windowMs) st.entries ≠ [] := by
    intro h0
    rw [h0] at hcount
    simp at hcount
    omega
  obtain ⟨s, hms⟩ : ∃ s, minScore (zRemRangeByScore (now - windowMs) st.entries) = some s := by
    cases hms : minScore (zRemRangeByScore (now - windowMs) st.entries) with
    | none => exact absurd (minScore_eq_none.mp hms) hne
    | some s => exact ⟨s, rfl⟩
  obtain ⟨e, he, hes⟩ := minScore_mem hms
  have hgt : now - windowMs < s := hes ▸ (mem_zRemRangeByScore.mp he).2
  refine ⟨s, hms, hgt, ?_, ceilDiv1000_pos (by omega)⟩
  rw [checkRateLimit_eq_reject limit windowMs now st hcount]
  simp [luaResetTime, hms]

/-- C10 witness: one surviving entry at score 4600, limit 1, window
1000 ms, now 5000: the oldest read succeeds and retryAfter is positive. -/
theorem checkRateLimit_reject_retry_positive_witness :
    (1 : Int) ≤ 1 ∧
    (1 : Int) ≤
      ((zRemRangeByScore (5000 - 1000)
        (⟨[⟨4600, 7⟩], 8, none⟩ : RLState).entries).length : Int) ∧
    (∃ s, minScore (zRemRangeByScore (5000 - 1000)
          (⟨[⟨4600, 7⟩], 8, none⟩ : RLState).entries) = some s ∧
      5000 - 1000 < s ∧
      (checkRateLimit 1 1000 5000 (⟨[⟨4600, 7⟩], 8, none⟩ : RLState)).1 =
        RLResult.err
          (RateLimitError.make 1 (ceilDiv1000 (s + 1000))
            (ceilDiv1000 (s + 1000 - 5000))) ∧
      0 < ceilDiv1000 (s + 1000 - 5000)) :=
  ⟨by decide, by decide,
    checkRateLimit_reject_retry_positive 1 1000 5000 ⟨[⟨4600, 7⟩], 8, none⟩
      (by decide) (by decide)⟩

lemma RATE_LIMIT_inj {a b : String}
    (h : REDIS_KEYS.RATE_LIMIT a = REDIS_KEYS.RATE_LIMIT b) : a = b := by
  have hd := congrArg String.data h
  simp only [REDIS_KEYS.RATE_LIMIT, String.data_append] at hd
  exact String.ext (List.append_cancel_left hd)

lemma checkRateLimitKeyed_frame (apiKeyId : String) (limit windowMs now : Int)
    (store : Store) (k : String) (hk : k ≠ REDIS_KEYS.RATE_LIMIT apiKeyId) :
    (checkRateLimitKeyed apiKeyId limit windowMs now store).2 k = store k := by
  simp only [checkRateLimitKeyed]
  rw [if_neg hk]

lemma runKeyedTrace_frame (A : String) (k : String)
    (hk : k ≠ REDIS_KEYS.RATE_LIMIT A) :
    ∀ (ops : List (Int × Int × Int)) (store : Store),
      runKeyedTrace A ops store k = store k := by
  intro ops
  induction ops with
  | nil => intro store; rfl
  | cons op rest ih =>
    intro store
    obtain ⟨l, w, n⟩ := op
    simp only [runKeyedTrace]
    rw [ih, checkRateLimitKeyed_frame A l w n store k hk]

/-- C9: each check reads and writes only the single key
`ratelimit:{apiKeyId}` of its own principal, so any sequence of admissions
or rejections for principal `A` leaves the window state — and hence the
observed quota status — of every other principal `B` unchanged. -/
theorem rateLimit_principal_independence (A B : String) (hAB : A ≠ B)
    (ops : List (Int × Int × Int)) (store : Store) :
    runKeyedTrace A ops store (REDIS_KEYS.RATE_LIMIT B) =
      store (REDIS_KEYS.RATE_LIMIT B) ∧
    (∀ limit windowMs now,
      getRateLimitStatus limit windowMs now
          (runKeyedTrace A ops store (REDIS_KEYS.RATE_LIMIT B)) =
        getRateLimitStatus limit windowMs now
          (store (REDIS_KEYS.RATE_LIMIT B))) := by
  have hkey : REDIS_KEYS.RATE_LIMIT B ≠ REDIS_KEYS.RATE_LIMIT A :=
    fun h => hAB (RATE_LIMIT_inj h).symm
  have h1 := runKeyedTrace_frame A (REDIS_KEYS.RATE_LIMIT B) hkey ops store
  exact ⟨h1, fun limit windowMs now => by rw [h1]⟩

/-- C9 witness: a one-call sequence for principal `a` leaves principal
`b`'s key state and quota status untouched. -/
theorem rateLimit_principal_independence_witness :
    ("a" : String) ≠ "b" ∧
    (runKeyedTrace "a" [(1, 1000, 0)] (fun _ => emptyState)
        (REDIS_KEYS.RATE_LIMIT "b") =
      (fun _ : String => emptyState) (REDIS_KEYS.RATE_LIMIT "b") ∧
    (∀ limit windowMs now,
      getRateLimitStatus limit windowMs now
          (runKeyedTrace "a" [(1, 1000, 0)] (fun _ => emptyState)
            (REDIS_KEYS.RATE_LIMIT "b")) =
        getRateLimitStatus limit windowMs now
          ((fun _ : String => emptyState) (REDIS_KEYS.RATE_LIMIT "b")))) :=
  ⟨by decide,
    rateLimit_principal_independence "a" "b" (by decide) [(1, 1000, 0)]
      (fun _ => emptyState)⟩

/-- C6: the purge-count-insert sequence runs as one atomic script, so two
boundary invocations for the same principal serialized by the store admit
at most one of the two: from a state whose post-purge count is
`limit - 1`, the first invocation is admitted and the second, running on
the resulting state, is rejected; and an invocation for one principal
never touches another principal's key. -/
theorem checkRateLimit_atomic_boundary (limit windowMs now : Int)
    (st : RLState) (hW : 0 < windowMs)
    (hfresh : ∀ e ∈ st.entries, e.member < st.nextToken)
    (hcount :
      ((zRemRangeByScore (now - windowMs) st.entries).length : Int) = limit - 1) :
    (∃ i, (checkRateLimit limit windowMs now st).1 = RLResult.ok i) ∧
    (∃ e2, (checkRateLimit limit windowMs now
        (checkRateLimit limit windowMs now st).2).1 = RLResult.err e2) ∧
    (∀ (A B : String) (l w n : Int) (store : Store), A ≠ B →
      (checkRateLimitKeyed A l w n store).2 (REDIS_KEYS.RATE_LIMIT B) =
        store (REDIS_KEYS.RATE_LIMIT B)) := by
  have hlt : ((zRemRangeByScore (now - windowMs) st.entries).length : Int) <
      limit := by omega
  have hallowed := checkRateLimit_eq_allowed limit windowMs now st hlt
  have hfresh' : ∀ e ∈ zRemRangeByScore (now - windowMs) st.entries,
      e.member ≠ st.nextToken :=
    fun e he =>
      Nat.ne_of_lt (hfresh e ((zRemRangeByScore_sublist _ _).subset he))
  have hz := zAdd_of_fresh hfresh' now
  refine ⟨⟨_, by rw [hallowed]⟩, ?_, ?_⟩
  · have hst1 : (checkRateLimit limit windowMs now st).2.entries =
        zRemRangeByScore (now - windowMs) st.entries ++ [⟨now, st.nextToken⟩] := by
      rw [hallowed]
      exact hz
    have hnw : now - windowMs < now := by omega
    have hpurge2 :
        zRemRangeByScore (now - windowMs)
            ((checkRateLimit limit windowMs now st).2.entries) =
          zRemRangeByScore (now - windowMs) st.entries ++ [⟨now, st.nextToken⟩] := by
      rw [hst1, zRemRangeByScore_append, zRemRangeByScore_idem]
      simp [zRemRangeByScore, hnw]
    have hc2 : limit ≤
        ((zRemRangeByScore (now - windowMs)
          ((checkRateLimit limit windowMs now st).2.entries)).length : Int) := by
      rw [hpurge2]
      simp only [List.length_append, List.length_cons, List.length_nil]
      push_cast
      omega
    exact ⟨_, by rw [checkRateLimit_eq_reject limit windowMs now _ hc2]⟩
  · intro A B l w n store hAB2
    exact checkRateLimitKeyed_frame A l w n store _
      (fun h => hAB2 (RATE_LIMIT_inj h).symm)

/-- C6 witness: fresh principal, limit 1 (boundary count 0 = limit - 1):
the first of two serialized calls at time 5000 is admitted, the second is
rejected. -/
theorem checkRateLimit_atomic_boundary_witness :
    (0 : Int) < 1000 ∧
    (∀ e ∈ (emptyState).entries, e.member < (emptyState).nextToken) ∧
    ((zRemRangeByScore (5000 - 1000) (emptyState).entries).length : Int) =
      1 - 1 ∧
    ((∃ i, (checkRateLimit 1 1000 5000 emptyState).1 = RLResult.ok i) ∧
    (∃ e2, (checkRateLimit 1 1000 5000
        (checkRateLimit 1 1000 5000 emptyState).2).1 = RLResult.err e2) ∧
    (∀ (A B : String) (l w n : Int) (store : Store), A ≠ B →
      (checkRateLimitKeyed A l w n store).2 (REDIS_KEYS.RATE_LIMIT B) =
        store (REDIS_KEYS.RATE_LIMIT B))) :=
  ⟨by decide, by decide, by decide,
    checkRateLimit_atomic_boundary 1 1000 5000 emptyState (by decide)
      (by decide) (by decide)⟩

/-! Machinery for the sliding-window bound over call traces. -/

lemma runTrace_cons (limit windowMs n : Int) (ns : List Int) (st : RLState) :
    runTrace limit windowMs (n :: ns) st =
      ((match (checkRateLimit limit windowMs n st).1 with
        | RLResult.ok _ => [n]
        | RLResult.err _ => []) ++
        (runTrace limit windowMs ns (checkRateLimit limit windowMs n st).2).1,
       (runTrace limit windowMs ns (checkRateLimit limit windowMs n st).2).2) :=
  rfl

lemma runTrace_admitted_mem (limit windowMs : Int) :
    ∀ (ns : List Int) (st : RLState) (s : Int),
      s ∈ (runTrace limit windowMs ns st).1 → s ∈ ns := by
  intro ns
  induction ns with
  | nil =>
    intro st s h
    simp [runTrace] at h
  | cons n ns ih =>
    intro st s h
    rw [runTrace_cons] at h
    rcases List.mem_append.mp h with h1 | h1
    · cases hr : (checkRateLimit limit windowMs n st).1 with
      | ok i =>
        rw [hr] at h1
        simp only [List.mem_singleton] at h1
        simp [h1]
      | err e =>
        rw [hr] at h1
        simp at h1
    · exact List.mem_cons_of_mem n (ih _ s h1)

lemma countP_window_purge (t windowMs n : Int) (l : List Entry) (hnt : n ≤ t) :
    (zRemRangeByScore (n - windowMs) l).countP
        (fun e => inWindow t windowMs e.score) =
      l.countP (fun e => inWindow t windowMs e.score) := by
  rw [zRemRangeByScore, List.countP_filter]
  apply List.countP_congr
  intro e _
  by_cases hw : inWindow t windowMs e.score = true
  · have hsc : t - windowMs < e.score := by
      have := (Bool.and_eq_true _ _).mp hw
      exact of_decide_eq_true this.1
    have : n - windowMs < e.score := by omega
    simp [hw, this]
  · simp [Bool.eq_false_iff.mpr hw]

lemma runTrace_window_aux (limit windowMs t : Int) :
    ∀ (ns : List Int) (st : RLState), List.Sorted (· ≤ ·) ns →
      (∀ e ∈ st.entries, e.member < st.nextToken) →
      ((st.entries.length : Int) ≤ limit) →
      ((runTrace limit windowMs ns st).1.countP (inWindow t windowMs) : Int) +
          (st.entries.countP (fun e => inWindow t windowMs e.score) : Int) ≤
        limit := by
  intro ns
  induction ns with
  | nil =>
    intro st _ _ hlen
    simp only [runTrace, List.countP_nil]
    have h1 := List.countP_le_length (fun e => inWindow t windowMs e.score)
      (l := st.entries)
    push_cast
    omega
  | cons n ns ih =>
    intro st hsort hfresh hlen
    obtain ⟨hn, hsort'⟩ := List.sorted_cons.mp hsort
    rcases le_or_lt n t with hnt | hnt
    · -- the head call happens no later than the window anchor
      rcases lt_or_le ((zRemRangeByScore (n - windowMs) st.entries).length : Int)
          limit with hadm | hrej
      · -- admitted
        have heq := checkRateLimit_eq_allowed limit windowMs n st hadm
        have hfresh' : ∀ e ∈ zRemRangeByScore (n - windowMs) st.entries,
            e.member ≠ st.nextToken :=
          fun e he =>
            Nat.ne_of_lt (hfresh e ((zRemRangeByScore_sublist _ _).subset he))
        have hz := zAdd_of_fresh hfresh' n
        rw [runTrace_cons, heq]
        simp only [hz]
        have hfresh1 : ∀ e ∈ zRemRangeByScore (n - windowMs) st.entries ++
            [(⟨n, st.nextToken⟩ : Entry)], e.member < st.nextToken + 1 := by
          intro e he
          rcases List.mem_append.mp he with h1 | h1
          · exact Nat.lt_succ_of_lt
              (hfresh e ((zRemRangeByScore_sublist _ _).subset h1))
          · simp only [List.mem_singleton] at h1
            subst h1
            exact Nat.lt_succ_self _
        have hlen1 : (((zRemRangeByScore (n - windowMs) st.entries ++
            [(⟨n, st.nextToken⟩ : Entry)]).length : Int)) ≤ limit := by
          simp only [List.length_append, List.length_cons, List.length_nil]
          push_cast
          omega
        have hIH := ih (⟨zRemRangeByScore (n - windowMs) st.entries ++
            [(⟨n, st.nextToken⟩ : Entry)], st.nextToken + 1,
            some (ceilDiv1000 windowMs)⟩ : RLState) hsort' hfresh1 hlen1
        simp only [List.countP_append, List.countP_cons, List.countP_nil,
          List.singleton_append] at hIH ⊢
        rw [countP_window_purge t windowMs n st.entries hnt] at hIH
        push_cast at hIH ⊢
        omega
      · -- rejected
        have heq := checkRateLimit_eq_reject limit windowMs n st hrej
        rw [runTrace_cons, heq]
        have hfresh1 : ∀ e ∈ zRemRangeByScore (n - windowMs) st.entries,
            e.member < st.nextToken + 1 :=
          fun e he => Nat.lt_succ_of_lt
            (hfresh e ((zRemRangeByScore_sublist _ _).subset he))
        have hlen1 : ((zRemRangeByScore (n - windowMs) st.entries).length : Int)
            ≤ limit := le_trans
          (by exact_mod_cast (zRemRangeByScore_sublist (n - windowMs)
            st.entries).length_le) hlen
        have hIH := ih (⟨zRemRangeByScore (n - windowMs) st.entries,
            st.nextToken + 1, st.ttl⟩ : RLState) hsort' hfresh1 hlen1
        simp only [List.nil_append] at hIH ⊢
        rw [countP_window_purge t windowMs n st.entries hnt] at hIH
        omega
    · -- the head call (and every later call) is past the window anchor
      have hzero : (runTrace limit windowMs (n :: ns) st).1.countP
          (inWindow t windowMs) = 0 := by
        apply List.countP_eq_zero.mpr
        intro s hs
        have hsmem := runTrace_admitted_mem limit windowMs (n :: ns) st s hs
        have hge : n ≤ s := by
          rcases List.mem_cons.mp hsmem with h1 | h1
          · exact h1 ▸ le_refl n
          · exact hn s h1
        simp only [inWindow, Bool.and_eq_true, decide_eq_true_eq, not_and]
        intro _
        omega
      rw [hzero]
      have h1 := List.countP_le_length (fun e => inWindow t windowMs e.score)
        (l := st.entries)
      push_cast
      omega

/-- C1: over any time-ordered sequence of script invocations for a single
principal starting from a fresh key, the number of admitted timestamps
lying in any sliding window `(t - windowMs, t]` never exceeds `limit`; and
the script admits (inserts) only when the post-purge count is strictly
below `limit`, so after any admission the principal's entry count is at
most `limit`. -/
theorem checkRateLimit_window_invariant (limit windowMs : Int)
    (hl : 0 ≤ limit) (ns : List Int) (hsorted : List.Sorted (· ≤ ·) ns)
    (t : Int) :
    (((runTrace limit windowMs ns emptyState).1.countP
        (inWindow t windowMs) : Int) ≤ limit) ∧
    (∀ (now : Int) (st : RLState) (i : RateLimitInfo) (st2 : RLState),
      checkRateLimit limit windowMs now st = (RLResult.ok i, st2) →
      ((st2.entries.length : Int) ≤ limit)) := by
  constructor
  · have haux := runTrace_window_aux limit windowMs t ns emptyState hsorted
      (by intro e he; simp [emptyState] at he) (by simp [emptyState]; exact hl)
    simpa [emptyState] using haux
  · intro now st i st2 h
    rcases lt_or_le ((zRemRangeByScore (now - windowMs) st.entries).length : Int)
        limit with hadm | hrej
    · have heq := checkRateLimit_eq_allowed limit windowMs now st hadm
      rw [heq] at h
      have hst2 : st2 = (⟨zAdd now st.nextToken
          (zRemRangeByScore (now - windowMs) st.entries),
          st.nextToken + 1, some (ceilDiv1000 windowMs)⟩ : RLState) :=
        ((Prod.mk.injEq _ _ _ _).mp h).2.symm
      rw [hst2]
      rcases zAdd_length now st.nextToken
          (zRemRangeByScore (now - windowMs) st.entries) with hzl | hzl <;>
        simp only [hzl] <;> push_cast <;> omega
    · have heq := checkRateLimit_eq_reject limit windowMs now st hrej
      rw [heq] at h
      exact absurd ((Prod.mk.injEq _ _ _ _).mp h).1 (by simp)

/-- C1 witness: limit 2, window 1000 ms, calls at times 0, 0, 500: at most
2 admitted timestamps fall in the window `(−500, 500]`. -/
theorem checkRateLimit_window_invariant_witness :
    (0 : Int) ≤ 2 ∧ List.Sorted (· ≤ ·) [(0 : Int), 0, 500] ∧
    ((((runTrace 2 1000 [(0 : Int), 0, 500] emptyState).1.countP
        (inWindow 500 1000) : Int) ≤ 2) ∧
    (∀ (now : Int) (st : RLState) (i : RateLimitInfo) (st2 : RLState),
      checkRateLimit 2 1000 now st = (RLResult.ok i, st2) →
      ((st2.entries.length : Int) ≤ 2))) :=
  ⟨by decide, by decide,
    checkRateLimit_window_invariant 2 1000 (by decide) [(0 : Int), 0, 500]
      (by decide) 500⟩

end RateLimiter
